import Mathlib

/-!
# A verification model of the shady render engine

This file gives a shallow embedding of the render engine of the `shady`
repository (package `renderer`, file `renderer.go`, together with the include
preprocessor of `preprocessor.go`) and proves properties of that embedding.

Modelling conventions:

* The OpenGL context is abstracted away: a drawn frame is represented by the
  `Image` the active environment's shader program would produce given the
  uniform values pushed by `PreRender`.  An `Environment`'s shader program is
  therefore modelled as a function `RenderState → Image` (field `render`).
* `time.Duration` values are modelled as `Nat`; every call site in the
  repository passes a non-negative interval (the animation interval derived
  from the `framerate` flag, or `0` in single-image mode).
* The capacity-1 Go channel `newEnvs` is modelled as an `Option Env` slot
  (`newEnvs` field): `some` = one buffered message, `none` = empty.  A send
  on a full capacity-1 channel blocks, which `setEnvironment` models by
  returning `none`.  `SetEnvironment` is never called with a nil
  `Environment` anywhere in the repository, so the `env == nil` branch of
  `reloadEnvironment` (renderer.go line 162) is unreachable and the slot
  carries a real environment.
* Functions of the engine that recurse through the sub-environment tree
  (`reloadEnvironment` constructing child engines, `nextHandle` ticking
  them) are defined with an explicit fuel parameter so that they are total
  and computable; running out of fuel is reported by a distinguished
  `outOfFuel` result.  Any finite sub-environment tree is fully processed
  once the fuel exceeds its size.
* Calls into environments and the GL layer that the claims observe are
  recorded in a trace of events (`Ev`).
-/

set_option autoImplicit false

namespace Shady

/-- A raster image: width, height and a pixel lookup function.  Models the
`image.Image` values produced by the pbo renderer's read-back. -/
structure Image where
  w : Nat
  h : Nat
  px : Nat → Nat → Nat

/-- `flip` wraps an image and flips it upside down (renderer.go lines
320-328): `At(x, y) = Image.At(x, h-y-1)`. -/
def flipImage (img : Image) : Image :=
  { w := img.w, h := img.h, px := fun x y => img.px x (img.h - y - 1) }

/-- The per-frame parameter bundle handed to `Environment.PreRender`
(environment.go `RenderState`).  `PreviousFrameTexID` is a lazy accessor for
the previous frame's texture; its contents are modelled directly as
`prevFrame`.  `SubBuffers` maps each sub-environment name to a texture
holding that child's render output; the texture contents are modelled
directly as images. -/
structure RenderState where
  time : Nat
  interval : Nat
  framesProcessed : Nat
  canvasWidth : Nat
  canvasHeight : Nat
  prevFrame : Option Image
  subBuffers : List (String × Image)

/-- Observable calls made by the engine, in program order.  `resOpen` /
`resClose` stand for the external resources an environment's `Setup`
acquires (e.g. the ShaderToy mappings opened one by one in
shadertoy.go `Setup`). -/
inductive Ev where
  | envSetup (id : Nat)
  | resOpen (id k : Nat)
  | resClose (id k : Nat)
  | envClose (id : Nat)
  | preRender (id time framesProcessed : Nat)
  | draw (id slot : Nat)
deriving DecidableEq, Repr

/-- An `Environment` (environment.go interface), specialised to what the
engine observes of it:

* `id` distinguishes environment instances in the event trace;
* `opens` is the number of external resources its `Setup` acquires before
  returning (successfully or not).  Mirroring the resource loop of
  shadertoy.go `Setup`, a failing `Setup` leaves the resources it already
  opened open;
* `setupOk` scripts whether `Setup` returns an error;
* `sourcesOk` scripts whether `Sources` (and program linking) succeeds;
* `subs` is the result of `SubEnvironments`: name, width, height and child
  environment;
* `render` is the compiled shader program: the image a draw call produces
  given the uniforms pushed by `PreRender` for a frame. -/
inductive Env where
  | mk (id : Nat) (opens : Nat) (setupOk : Bool) (sourcesOk : Bool)
       (subs : List (String × Nat × Nat × Env)) (render : RenderState → Image)

def Env.id : Env → Nat
  | .mk i _ _ _ _ _ => i

def Env.opens : Env → Nat
  | .mk _ o _ _ _ _ => o

def Env.setupOk : Env → Bool
  | .mk _ _ s _ _ _ => s

def Env.sourcesOk : Env → Bool
  | .mk _ _ _ s _ _ => s

def Env.subs : Env → List (String × Nat × Nat × Env)
  | .mk _ _ _ _ s _ => s

def Env.render : Env → RenderState → Image
  | .mk _ _ _ _ _ r => r

/-- The fixed number of render targets of the pbo renderer: the `targets`
field of `pboRenderer` is a `[3]struct` array and `NumBuffers` returns its
length (renderer.go lines 340-346, 374-376). -/
def numBuffers : Nat := 3

/-- The render-target ring (`pboRenderer`, renderer.go lines 340-346).
`targets i` holds the pixel content transferred into target `i`'s pixel
buffer by the most recent `Draw` of that target (`none` if the target was
never drawn to). -/
structure PboRenderer where
  curTargetIndex : Nat
  targets : Nat → Option Image

/-- A freshly set-up ring: cursor at 0, no target drawn yet
(`pboRenderer.Setup`, renderer.go lines 348-372). -/
def PboRenderer.init : PboRenderer :=
  { curTargetIndex := 0, targets := fun _ => none }

/-- `pboRenderer.Draw` (renderer.go lines 387-401): advance the cursor to
`(cur+1) mod 3`, render the caller's scene into that target, start the
transfer of the target's pixels into its pixel buffer, and return the
target's index as the handle.  The drawn scene is the image argument. -/
def PboRenderer.draw (pr : PboRenderer) (img : Image) : PboRenderer × Nat :=
  let i := (pr.curTargetIndex + 1) % numBuffers
  (⟨i, fun s => if s = i then some img else pr.targets s⟩, i)

/-- `pboRenderer.Image` (renderer.go lines 378-385): read back the pixel
buffer of the named target. -/
def PboRenderer.image (pr : PboRenderer) (handle : Nat) : Option Image :=
  pr.targets handle

/-- `pboRenderer.Texture` (renderer.go lines 403-421): create a texture
whose contents are copied from the named target's pixel buffer.  Only the
contents matter to the model. -/
def PboRenderer.texture (pr : PboRenderer) (handle : Nat) : Option Image :=
  pr.targets handle

/-- The engine (`Shader` struct, renderer.go lines 32-52).  `newEnvs` is the
capacity-1 hand-off channel, `subTargets` the child engines (one per
sub-environment), `prevFrameHandle` the ring handle of the last drawn
frame. -/
inductive Shader where
  | mk (w h : Nat) (env : Option Env) (newEnvs : Option Env)
       (subTargets : List (String × Shader)) (time frame : Nat)
       (prevFrameHandle : Option Nat) (renderer : PboRenderer)

def Shader.w : Shader → Nat
  | .mk w _ _ _ _ _ _ _ _ => w

def Shader.h : Shader → Nat
  | .mk _ h _ _ _ _ _ _ _ => h

def Shader.env : Shader → Option Env
  | .mk _ _ e _ _ _ _ _ _ => e

def Shader.newEnvs : Shader → Option Env
  | .mk _ _ _ n _ _ _ _ _ => n

def Shader.subTargets : Shader → List (String × Shader)
  | .mk _ _ _ _ s _ _ _ _ => s

def Shader.time : Shader → Nat
  | .mk _ _ _ _ _ t _ _ _ => t

def Shader.frame : Shader → Nat
  | .mk _ _ _ _ _ _ f _ _ => f

def Shader.prevFrameHandle : Shader → Option Nat
  | .mk _ _ _ _ _ _ _ p _ => p

def Shader.renderer : Shader → PboRenderer
  | .mk _ _ _ _ _ _ _ _ r => r

/-- `NewShader` (renderer.go lines 90-132): a fresh engine with no
environment, an empty hand-off slot, no children, zeroed counters and a
freshly set-up ring. -/
def newShader (w h : Nat) : Shader :=
  .mk w h none none [] 0 0 none PboRenderer.init

/-- `Shader.SetEnvironment` (renderer.go lines 210-212): a send on the
capacity-1 channel `newEnvs`.  If the slot is empty the environment is
buffered; if a previous publish has not been consumed yet the send blocks,
modelled by returning `none`. -/
def setEnvironment (sh : Shader) (e : Env) : Option Shader :=
  match sh with
  | .mk w h env slot subs time frame prev ring =>
    match slot with
    | none => some (.mk w h env (some e) subs time frame prev ring)
    | some _ => none

/-- The calls the fueled interpreter can perform: `reloadEnvironment`
(with the context's cancellation state), the sub-environment construction
loop inside it, `nextHandle`, and the child-ticking loop inside that. -/
inductive Call where
  | reload (ctxCanceled : Bool) (sh : Shader)
  | buildSubs (subs : List (String × Nat × Nat × Env))
  | tick (interval : Nat) (sh : Shader)
  | tickSubs (interval : Nat) (subs : List (String × Shader))

/-- Results of the interpreter's calls.

* `reloadOk / reloadErr`: `reloadEnvironment` returned nil / an error, with
  the engine state it left behind and the trace of calls it made.
* `canceled`: the engine was idle and the context was canceled.
* `blocked`: the engine was idle with nothing pending: the Go code blocks
  on the channel receive.
* `subsOk / subsErr`: the sub-environment construction loop finished /
  failed, with the child engines built so far.
* `tickOk`: `nextHandle` returned a ring handle.
* `tickFail`: `nextHandle`'s internal `reloadEnvironment` failed; the Go
  code logs the error and returns a nil handle.
* `tickSubsOk`: all children ticked; their new states and the name → output
  texture contents map.
* `tickSubsFail`: a child tick failed; the Go code would panic on the nil
  handle type assertion in `Texture`.
* `outOfFuel`: the fuel was exhausted. -/
inductive Res where
  | reloadOk (sh : Shader) (tr : List Ev)
  | reloadErr (sh : Shader) (tr : List Ev)
  | canceled
  | blocked
  | subsOk (subs : List (String × Shader)) (tr : List Ev)
  | subsErr (built : List (String × Shader)) (tr : List Ev)
  | tickOk (sh : Shader) (handle : Nat) (tr : List Ev)
  | tickFail (sh : Shader) (tr : List Ev)
  | tickSubsOk (subs : List (String × Shader)) (bufs : List (String × Image)) (tr : List Ev)
  | tickSubsFail (tr : List Ev)
  | outOfFuel

/-- The trace produced by a call to `Environment.Setup`: the setup call
itself followed by the resources it opens (shadertoy.go `Setup` opens the
mapped resources one by one and performs no rollback when one of them
fails). -/
def setupTrace (e : Env) : List Ev :=
  Ev.envSetup e.id :: (List.range e.opens).map (fun k => Ev.resOpen e.id k)

/-- The fueled interpreter for the engine's recursive operations.  Each case
transcribes the corresponding Go function:

* `.reload` is `Shader.reloadEnvironment` (renderer.go lines 136-208):
  receive from `newEnvs` (blocking when no environment is set, non-blocking
  otherwise), close the old environment, run the new environment's `Setup`,
  construct child engines for its sub-environments, build the program from
  `Sources`, and install the environment.  Failures leave the engine with
  no active environment, exactly as the Go code does.
* `.buildSubs` is the loop at renderer.go lines 181-192: for each declared
  sub-environment create a fresh engine, publish the child environment into
  it and reload it; on a child error the loop aborts with the children
  built so far.
* `.tick` is `Shader.nextHandle` (renderer.go lines 214-269): reload, tick
  all children and collect their output textures, call `PreRender` with the
  current counters, advance `time` and `frame`, draw through the ring and
  record the returned handle as the previous frame.
* `.tickSubs` is the loop at renderer.go lines 229-241: tick each child and
  obtain а texture of its freshly drawn target. -/
def engineStep : Nat → Call → Res
  | 0, _ => .outOfFuel
  | f + 1, c =>
    match c with
    | .reload ctxCanceled sh =>
      match sh with
      | .mk w h envO slotO subs time frame prev ring =>
        match envO, slotO with
        | none, none =>
          -- no environment set: block until one is published or the
          -- context is canceled
          if ctxCanceled then .canceled else .blocked
        | some _, none =>
          -- an environment is set and none is pending: return nil at once
          .reloadOk sh []
        | envO, some e =>
          -- an environment was received from the channel
          let closeTr : List Ev :=
            match envO with
            | some old => [Ev.envClose old.id]
            | none => []
          if e.setupOk then
            match engineStep f (.buildSubs e.subs) with
            | .subsOk newSubs tr2 =>
              if e.sourcesOk then
                .reloadOk (.mk w h (some e) none newSubs time frame prev ring)
                  (closeTr ++ setupTrace e ++ tr2)
              else
                .reloadErr (.mk w h none none newSubs time frame prev ring)
                  (closeTr ++ setupTrace e ++ tr2)
            | .subsErr part tr2 =>
              .reloadErr (.mk w h none none part time frame prev ring)
                (closeTr ++ setupTrace e ++ tr2)
            | .outOfFuel => .outOfFuel
            | _ => .outOfFuel
          else
            -- Setup failed: the old environment is already closed and
            -- cleared, the old children are left in place, and the new
            -- environment's resources are not closed
            .reloadErr (.mk w h none none subs time frame prev ring)
              (closeTr ++ setupTrace e)
    | .buildSubs l =>
      match l with
      | [] => .subsOk [] []
      | (nm, w, h, e) :: rest =>
        let s := newShader w h
        let s' := Shader.mk s.w s.h s.env (some e) s.subTargets s.time s.frame
          s.prevFrameHandle s.renderer
        match engineStep f (.reload false s') with
        | .reloadOk s1 tr1 =>
          match engineStep f (.buildSubs rest) with
          | .subsOk l2 tr2 => .subsOk ((nm, s1) :: l2) (tr1 ++ tr2)
          | .subsErr part tr2 => .subsErr ((nm, s1) :: part) (tr1 ++ tr2)
          | .outOfFuel => .outOfFuel
          | _ => .outOfFuel
        | .reloadErr _ tr1 => .subsErr [] tr1
        | .outOfFuel => .outOfFuel
        | _ => .outOfFuel
    | .tick interval sh =>
      match engineStep f (.reload false sh) with
      | .reloadOk sh1 tr0 =>
        match sh1 with
        | .mk w h (some e) slot1 subs time frame prev ring =>
          let prevImg : Option Image := prev.bind (fun p => ring.texture p)
          match engineStep f (.tickSubs interval subs) with
          | .tickSubsOk subs1 bufs trS =>
            let st : RenderState :=
              ⟨time, interval, frame, w, h, prevImg, bufs⟩
            let drawn := PboRenderer.draw ring (e.render st)
            .tickOk
              (.mk w h (some e) slot1 subs1 (time + interval) (frame + 1)
                (some drawn.2) drawn.1)
              drawn.2
              (tr0 ++ trS ++ [Ev.preRender e.id time frame, Ev.draw e.id drawn.2])
          | .tickSubsFail trS =>
            .tickFail (.mk w h (some e) slot1 subs time frame prev ring) (tr0 ++ trS)
          | .outOfFuel => .outOfFuel
          | _ => .outOfFuel
        | .mk _ _ none _ _ _ _ _ _ =>
          -- unreachable: a nil reload result always leaves an environment
          -- installed when no nil environment is ever published
          .tickFail sh1 tr0
      | .reloadErr sh1 tr0 => .tickFail sh1 tr0
      | .blocked => .blocked
      | .canceled => .canceled
      | .outOfFuel => .outOfFuel
      | _ => .outOfFuel
    | .tickSubs interval l =>
      match l with
      | [] => .tickSubsOk [] [] []
      | (nm, s) :: rest =>
        match engineStep f (.tick interval s) with
        | .tickOk s1 hdl tr1 =>
          match s1.renderer.texture hdl with
          | some img =>
            match engineStep f (.tickSubs interval rest) with
            | .tickSubsOk l2 bufs tr2 =>
              .tickSubsOk ((nm, s1) :: l2) ((nm, img) :: bufs) (tr1 ++ tr2)
            | .tickSubsFail tr2 => .tickSubsFail (tr1 ++ tr2)
            | .outOfFuel => .outOfFuel
            | _ => .outOfFuel
          | none => .tickSubsFail tr1
        | .tickFail _ tr1 => .tickSubsFail tr1
        | .blocked => .blocked
        | .outOfFuel => .outOfFuel
        | _ => .outOfFuel

/-- `Shader.reloadEnvironment` (renderer.go lines 136-208). -/
def reloadEnvironment (fuel : Nat) (ctxCanceled : Bool) (sh : Shader) : Res :=
  engineStep fuel (.reload ctxCanceled sh)

/-- `Shader.nextHandle` (renderer.go lines 214-269). -/
def nextHandle (fuel interval : Nat) (sh : Shader) : Res :=
  engineStep fuel (.tick interval sh)

/-- `Shader.Image` (renderer.go lines 271-274): one tick with interval 0,
then an immediate read-back of the returned handle.  A failed tick returns
no image. -/
def shaderImage (fuel : Nat) (sh : Shader) : Shader × Option Image :=
  match engineStep fuel (.tick 0 sh) with
  | .tickOk sh1 hdl _ => (sh1, sh1.renderer.image hdl)
  | .tickFail sh1 _ => (sh1, none)
  | _ => (sh, none)

/-- `Shader.Animate`'s loop (renderer.go lines 276-301), iterated `n` times
with an un-canceled context and a consumer that always accepts.  `queue` is
the `buffer` channel of handles (capacity `numBuffers`), `delivered` the
images sent to the consumer stream (each wrapped in `flip`), and `drawn` a
ghost observation recording, for each tick, the read-back of the handle it
drew (taken immediately, before any later tick can overwrite the target).
When the loop cannot proceed (blocked, canceled or out of fuel) it stops
and returns the state reached. -/
def animate (fuel interval : Nat) :
    Nat → Shader → List Nat → List (Option Image) → List (Option Image) →
    Shader × List Nat × List (Option Image) × List (Option Image)
  | 0, sh, queue, delivered, drawn => (sh, queue, delivered, drawn)
  | n + 1, sh, queue, delivered, drawn =>
    match engineStep fuel (.reload false sh) with
    | .reloadOk sh1 _ =>
      match engineStep fuel (.tick interval sh1) with
      | .tickOk sh2 hdl _ =>
        let drawn1 := drawn ++ [sh2.renderer.image hdl]
        let queue1 := queue ++ [hdl]
        if queue1.length = numBuffers then
          match queue1 with
          | q0 :: qrest =>
            animate fuel interval n sh2 qrest
              (delivered ++ [(sh2.renderer.image q0).map flipImage]) drawn1
          | [] => (sh2, queue1, delivered, drawn1)
        else
          animate fuel interval n sh2 queue1 delivered drawn1
      | _ => (sh1, queue, delivered, drawn)
    | .reloadErr sh1 _ =>
      -- the Go loop logs the error and re-enters the loop body
      animate fuel interval n sh1 queue delivered drawn
    | _ => (sh, queue, delivered, drawn)

/-- The engine state carried in a result, when there is one. -/
def Res.resShader : Res → Option Shader
  | .reloadOk sh _ => some sh
  | .reloadErr sh _ => some sh
  | .tickOk sh _ _ => some sh
  | .tickFail sh _ => some sh
  | _ => none

/-- The event trace carried in a result. -/
def Res.resTrace : Res → List Ev
  | .reloadOk _ tr => tr
  | .reloadErr _ tr => tr
  | .subsOk _ tr => tr
  | .subsErr _ tr => tr
  | .tickOk _ _ tr => tr
  | .tickFail _ tr => tr
  | .tickSubsOk _ _ tr => tr
  | .tickSubsFail tr => tr
  | _ => []

/-- Whether a result is a surfaced `reloadEnvironment` error. -/
def Res.isErr : Res → Bool
  | .reloadErr _ _ => true
  | _ => false

/-! ## The include preprocessor

`preprocessor.go`.  The file system is modelled as a total function from
(already absolute) file names to the list of file names referenced by the
file's `#pragma use` directives, in order; path resolution (`filepath.Abs`
and `filepath.Join`) and disk errors are abstracted away. -/

/-- `processRecursive` (preprocessor.go lines 42-91), with fuel (`none` =
the fuel ran out; the Go function has no fuel and simply keeps recursing).
For each root: collect the file's include references, drop those already
present in `sources ++ [current]` (the "checkset"), recurse into the
remaining ones, then append the current file. -/
def processRecursive (fs : String → List String) :
    Nat → List String → List String → Option (List String)
  | 0, _, _ => none
  | _ + 1, [], sources => some sources
  | f + 1, fn :: rest, sources =>
    let checkset := sources ++ [fn]
    let includes := (fs fn).filter (fun inc => ¬ inc ∈ checkset)
    match processRecursive fs f includes sources with
    | none => none
    | some s' => processRecursive fs f rest (s' ++ [fn])

/-- `Includes` (preprocessor.go lines 26-31). -/
def Includes (fs : String → List String) (fuel : Nat) (filenames : List String) :
    Option (List String) :=
  processRecursive fs fuel filenames []

/-! ## Concrete test fixtures

Small concrete environments and engine states used to instantiate the
theorems below on explicit inputs. -/

/-- A shader program whose output pixel is the frame counter pushed by
`PreRender` — the behaviour of any ShaderToy shader that renders the
`iFrame` uniform (shadertoy.go sets `iFrame` from
`state.FramesProcessed`). -/
def frameProbe : RenderState → Image :=
  fun st => ⟨1, 1, fun _ _ => st.framesProcessed⟩

/-- A shader program with constant output. -/
def constProbe : RenderState → Image :=
  fun _ => ⟨1, 1, fun _ _ => 0⟩

/-- A plain leaf environment that sets up successfully. -/
def envGood : Env := .mk 0 0 true true [] frameProbe

/-- An environment whose `Setup` opens one resource and then fails. -/
def envBadSetup : Env := .mk 1 1 false true [] constProbe

/-- Another plain environment, distinct from `envGood`. -/
def envGood2 : Env := .mk 2 0 true true [] constProbe

/-- An engine with `envGood` active, nothing pending. -/
def shReady : Shader := .mk 4 4 (some envGood) none [] 0 0 none PboRenderer.init

/-- An engine with `envGood` active and `envBadSetup` pending in the
hand-off slot, mid-animation (time 7, frame 3). -/
def shSwapFail : Shader :=
  .mk 4 4 (some envGood) (some envBadSetup) [] 7 3 none PboRenderer.init

/-- An engine with `envGood` active and `envGood2` pending, mid-animation
(time 7, frame 3). -/
def shSwapOk : Shader :=
  .mk 4 4 (some envGood) (some envGood2) [] 7 3 none PboRenderer.init

/-- A leaf child environment named A. -/
def envChildA : Env := .mk 10 0 true true [] constProbe

/-- A leaf child environment named B. -/
def envChildB : Env := .mk 11 0 true true [] frameProbe

/-- A ready child engine driving `envChildA`. -/
def shChildA : Shader := .mk 2 2 (some envChildA) none [] 0 0 none PboRenderer.init

/-- A ready child engine driving `envChildB`. -/
def shChildB : Shader := .mk 2 2 (some envChildB) none [] 0 0 none PboRenderer.init

/-- A parent environment whose engine owns the two child engines. -/
def envParent : Env := .mk 12 0 true true [] constProbe

/-- A ready parent engine with two named sub-engines, as built by a
successful reload of an environment declaring two sub-environments. -/
def shParent : Shader :=
  .mk 4 4 (some envParent) none [("a", shChildA), ("b", shChildB)] 0 0 none
    PboRenderer.init

/-- A ready engine whose environment's output is independent of the frame
counter and previous frame. -/
def shReadyConst : Shader :=
  .mk 4 4 (some envGood2) none [] 0 0 none PboRenderer.init

/-- The file system of the mutual-inclusion counterexample: `a.glsl` says
`#pragma use "b.glsl"` and `b.glsl` says `#pragma use "a.glsl"`. -/
def fsMutual : String → List String :=
  fun fn => if fn = "a.glsl" then ["b.glsl"] else if fn = "b.glsl" then ["a.glsl"] else []

/-! ## Engine well-formedness

`ReadyD d sh` says the engine `sh` has an active environment, an empty
hand-off slot, and well-formed children, with `d` bounding the fuel the
fueled interpreter needs to tick it.  This is the shape every engine
reached through a successful reload has. -/

mutual

inductive ReadyD : Nat → Shader → Prop where
  | intro (d' d : Nat) (w h : Nat) (e : Env) (subs : List (String × Shader))
      (time frame : Nat) (prev : Option Nat) (ring : PboRenderer) :
      ReadySubs d' subs → d' < d →
      ReadyD d (.mk w h (some e) none subs time frame prev ring)

inductive ReadySubs : Nat → List (String × Shader) → Prop where
  | nil (d : Nat) : ReadySubs d []
  | cons (d1 d2 d : Nat) (nm : String) (s : Shader) (rest : List (String × Shader)) :
      ReadyD d1 s → ReadySubs d2 rest → d1 < d → d2 < d →
      ReadySubs d ((nm, s) :: rest)

end

/-- The property each sub-environment's output satisfies after the loop at
renderer.go lines 229-241 has run, relative to the child engine's state at
the start of the parent's tick: the buffer entry carries the child's name
and the image the child's environment rendered THIS frame (at the child's
pre-tick counters), and the child's `PreRender` and draw calls are in the
trace prefix `trS`. -/
def ChildSpec (trS : List Ev) (c : String × Shader) (b : String × Image) : Prop :=
  b.1 = c.1 ∧
  ∃ ec stc, c.2.env = some ec ∧ b.2 = ec.render stc ∧
    stc.time = c.2.time ∧ stc.framesProcessed = c.2.frame ∧
    Ev.preRender ec.id c.2.time c.2.frame ∈ trS ∧
    Ev.draw ec.id ((c.2.renderer.curTargetIndex + 1) % numBuffers) ∈ trS

/-- What a tick of a ready engine produces: a handle, a trace consisting of
the children's calls followed by the parent's `PreRender` and draw, a
target holding the parent's rendered image, a still-ready engine, and a
`RenderState` whose `subBuffers` are exactly the children's current-frame
outputs. -/
def TickSpec (f i d : Nat) (sh : Shader) : Prop :=
  ∃ e sh' hdl trS st,
    sh.env = some e ∧
    engineStep f (.tick i sh) =
      .tickOk sh' hdl (trS ++ [Ev.preRender e.id sh.time sh.frame, Ev.draw e.id hdl]) ∧
    ReadyD d sh' ∧
    sh'.renderer.targets hdl = some (e.render st) ∧
    st.subBuffers.length = sh.subTargets.length ∧
    List.Forall₂ (ChildSpec trS) sh.subTargets st.subBuffers ∧
    st.time = sh.time ∧ st.interval = i ∧ st.framesProcessed = sh.frame ∧
    st.canvasWidth = sh.w ∧ st.canvasHeight = sh.h

/-- What the child-ticking loop of a ready engine produces. -/
def SubsSpec (g i d : Nat) (subs : List (String × Shader)) : Prop :=
  ∃ subs' bufs trS,
    engineStep g (.tickSubs i subs) = .tickSubsOk subs' bufs trS ∧
    ReadySubs d subs' ∧
    List.Forall₂ (ChildSpec trS) subs bufs

/-- Invariant of the `Animate` loop relating the engine's ring, the handle
queue `q`, the delivered images `del`, and the ghost list `dr` of per-tick
read-backs.  Writing `cur` for the ring cursor and `T` for the number of
ticks performed, the queue holds the handles of the last two ticks, the
delivered list is the flip of all but the last two read-backs, and the
three ring targets hold the read-backs of the last three ticks. -/
def AnimInv (sh : Shader) (q : List Nat) (del dr : List (Option Image)) : Prop :=
  del = (dr.take (dr.length - 2)).map (Option.map flipImage) ∧
  ((dr.length = 0 ∧ q = []) ∨
    (dr.length = 1 ∧ q = [sh.renderer.curTargetIndex]) ∨
    (2 ≤ dr.length ∧
      q = [(sh.renderer.curTargetIndex + 2) % 3, sh.renderer.curTargetIndex])) ∧
  (1 ≤ dr.length → ∃ im,
    sh.renderer.targets sh.renderer.curTargetIndex = some im ∧
    dr[dr.length - 1]? = some (some im)) ∧
  (2 ≤ dr.length → ∃ im,
    sh.renderer.targets ((sh.renderer.curTargetIndex + 2) % 3) = some im ∧
    dr[dr.length - 2]? = some (some im)) ∧
  (3 ≤ dr.length → ∃ im,
    sh.renderer.targets ((sh.renderer.curTargetIndex + 1) % 3) = some im ∧
    dr[dr.length - 3]? = some (some im))

/-- The engine fields `reloadEnvironment` never touches: geometry, the
time/frame counters, the previous-frame handle and the ring. -/
def SameCore (sh sh1 : Shader) : Prop :=
  sh1.w = sh.w ∧ sh1.h = sh.h ∧ sh1.time = sh.time ∧ sh1.frame = sh.frame ∧
  sh1.prevFrameHandle = sh.prevFrameHandle ∧ sh1.renderer = sh.renderer

/-! ## Theorems -/

/-- C2 (counterexample): at an explicit input, a second publish through
`SetEnvironment` before the first is consumed does NOT complete: the send
on the capacity-1 channel blocks (`none`) instead of replacing the queued
environment, refuting the claimed overwrite semantics. -/
theorem latest_wins_counterexample :
    setEnvironment (newShader 4 4) envGood =
      some (Shader.mk 4 4 none (some envGood) [] 0 0 none PboRenderer.init) ∧
    setEnvironment (Shader.mk 4 4 none (some envGood) [] 0 0 none PboRenderer.init)
      envGood2 = none :=
  ⟨rfl, rfl⟩

/-- C2 (amended): the hand-off slot buffers at most one pending
Environment; a second publish via `SetEnvironment` before the first is
consumed BLOCKS the publisher (the capacity-1 channel send does not
complete) and the slot keeps holding the first published Environment
unchanged. -/
theorem second_publish_blocks (sh sh1 : Shader) (e1 e2 : Env)
    (h : setEnvironment sh e1 = some sh1) :
    setEnvironment sh1 e2 = none ∧ sh1.newEnvs = some e1 := by
  cases sh with
  | mk w hh env slot subs t fr pv rg =>
    cases slot with
    | none =>
      simp only [setEnvironment, Option.some.injEq] at h
      subst h
      exact ⟨rfl, rfl⟩
    | some e => simp [setEnvironment] at h

/-- C2 witness: concrete instantiation of `second_publish_blocks`. -/
theorem second_publish_blocks_witness :
    setEnvironment (Shader.mk 4 4 none (some envGood) [] 0 0 none PboRenderer.init)
      envGood2 = none ∧
    (Shader.mk 4 4 none (some envGood) [] 0 0 none PboRenderer.init).newEnvs =
      some envGood :=
  second_publish_blocks (newShader 4 4) _ envGood envGood2 rfl

/-- C9: `pboRenderer.Draw` advances the cursor to `(cursor+1) mod 3`,
renders the supplied scene into that target, transfers that target's
pixels (leaving all other targets untouched), and returns the index of the
target used as the handle; three consecutive draws return pairwise
distinct handles. -/
theorem pboRenderer_draw_spec (pr : PboRenderer) (a b c : Image) :
    ((pr.draw a).2 = (pr.curTargetIndex + 1) % numBuffers ∧
      (pr.draw a).1.curTargetIndex = (pr.draw a).2 ∧
      (pr.draw a).1.targets (pr.draw a).2 = some a ∧
      (∀ s, s ≠ (pr.draw a).2 → (pr.draw a).1.targets s = pr.targets s)) ∧
    ((pr.draw a).2 ≠ ((pr.draw a).1.draw b).2 ∧
      (pr.draw a).2 ≠ (((pr.draw a).1.draw b).1.draw c).2 ∧
      ((pr.draw a).1.draw b).2 ≠ (((pr.draw a).1.draw b).1.draw c).2) := by
  refine ⟨⟨rfl, rfl, ?_, ?_⟩, ?_, ?_, ?_⟩
  · simp [PboRenderer.draw]
  · intro s hs
    simpa [PboRenderer.draw] using fun h => absurd h hs
  all_goals
    simp only [PboRenderer.draw, numBuffers]
    omega

/-- C3: on the mutually including pair `a.glsl` ↔ `b.glsl`, the include
resolution of `processRecursive` never terminates: the recursion check
only consults files that are already fully processed plus the current
file, so each of the two files keeps scheduling the other forever and the
computation exhausts any amount of fuel. -/
theorem includes_mutual_cycle_diverges (fuel : Nat) :
    Includes fsMutual fuel ["a.glsl"] = none ∧
    Includes fsMutual fuel ["b.glsl"] = none := by
  induction fuel with
  | zero => exact ⟨rfl, rfl⟩
  | succ f ih =>
    have ha : Includes fsMutual (f + 1) ["a.glsl"] =
        (match Includes fsMutual f ["b.glsl"] with
          | none => none
          | some s' => processRecursive fsMutual f [] (s' ++ ["a.glsl"])) := rfl
    have hb : Includes fsMutual (f + 1) ["b.glsl"] =
        (match Includes fsMutual f ["a.glsl"] with
          | none => none
          | some s' => processRecursive fsMutual f [] (s' ++ ["b.glsl"])) := rfl
    rw [ih.2] at ha
    rw [ih.1] at hb
    exact ⟨ha, hb⟩

/-- C1 (counterexample): with `envGood` (id 0) active and `envBadSetup`
(id 1, opens one resource, then `Setup` fails) pending, `reloadEnvironment`
surfaces an error, the previously active environment does NOT remain
active (it has already been closed and the engine is left with no
environment), and the resource opened during the failed `Setup` is never
closed. -/
theorem swap_atomicity_counterexample :
    (reloadEnvironment 9 false shSwapFail).isErr = true ∧
    (reloadEnvironment 9 false shSwapFail).resShader.map Shader.env = some none ∧
    (reloadEnvironment 9 false shSwapFail).resTrace =
      [Ev.envClose 0, Ev.envSetup 1, Ev.resOpen 1 0] ∧
    Ev.envClose 1 ∉ (reloadEnvironment 9 false shSwapFail).resTrace ∧
    Ev.resClose 1 0 ∉ (reloadEnvironment 9 false shSwapFail).resTrace :=
  ⟨rfl, rfl, by decide, by decide, by decide⟩

/-- C1 (amended): if the `Setup` of a newly published Environment fails
during `reloadEnvironment`, the previously active Environment has already
been closed and removed (the engine is left with NO active environment,
so subsequent ticks block waiting for a new publish), and the resources
opened during the failed `Setup` attempt are NOT closed before the error
is surfaced: the engine never calls `Close` on the failed environment. -/
theorem swap_failure_closes_old_env (f : Nat) (ctx : Bool) (w h t fr : Nat)
    (pv : Option Nat) (rg : PboRenderer) (subs : List (String × Shader))
    (old e : Env) (hsf : e.setupOk = false) (hid : old.id ≠ e.id) :
    reloadEnvironment (f + 1) ctx (.mk w h (some old) (some e) subs t fr pv rg) =
      .reloadErr (.mk w h none none subs t fr pv rg)
        ([Ev.envClose old.id] ++ setupTrace e) ∧
    Ev.envClose e.id ∉ [Ev.envClose old.id] ++ setupTrace e ∧
    ∀ k, Ev.resClose e.id k ∉ [Ev.envClose old.id] ++ setupTrace e := by
  refine ⟨?_, ?_, ?_⟩
  · simp [reloadEnvironment, engineStep, hsf]
  · simp [setupTrace, List.mem_cons, List.mem_map, Ne.symm hid]
  · intro k
    simp [setupTrace, List.mem_cons, List.mem_map]

/-- C1 witness: `swap_failure_closes_old_env` at the concrete engine
`shSwapFail`. -/
theorem swap_failure_closes_old_env_witness :
    (envBadSetup.setupOk = false ∧ envGood.id ≠ envBadSetup.id) ∧
    (reloadEnvironment 9 false shSwapFail =
      .reloadErr (.mk 4 4 none none [] 7 3 none PboRenderer.init)
        ([Ev.envClose envGood.id] ++ setupTrace envBadSetup) ∧
      Ev.envClose envBadSetup.id ∉ [Ev.envClose envGood.id] ++ setupTrace envBadSetup ∧
      ∀ k, Ev.resClose envBadSetup.id k ∉ [Ev.envClose envGood.id] ++ setupTrace envBadSetup) :=
  ⟨⟨rfl, by decide⟩,
    swap_failure_closes_old_env 8 false 4 4 7 3 none PboRenderer.init []
      envGood envBadSetup rfl (by decide)⟩

/-- Helper: an engine with an active environment and an empty hand-off
slot reloads to itself at once, for any context state. -/
theorem reload_no_pending (f : Nat) (ctx : Bool) (sh : Shader) (e0 : Env)
    (h1 : sh.env = some e0) (h2 : sh.newEnvs = none) :
    engineStep (f + 1) (.reload ctx sh) = .reloadOk sh [] := by
  cases sh with
  | mk w hh envO slotO subs t fr pv rg =>
    simp only [Shader.env] at h1
    simp only [Shader.newEnvs] at h2
    subst h1
    subst h2
    rfl

/-- Helper: shape of every `reloadEnvironment` result that carries an
engine state: the core fields are preserved, the hand-off slot is left
empty, a nil result with nothing pending is an identity, a nil result with
a pending environment installs it, and an error result leaves no active
environment. -/
theorem reload_shape (f : Nat) (ctx : Bool) (sh : Shader) :
    (∀ sh1 tr, engineStep f (.reload ctx sh) = .reloadOk sh1 tr →
      SameCore sh sh1 ∧ sh1.newEnvs = none ∧
      (sh.newEnvs = none → sh1 = sh ∧ tr = []) ∧
      (∀ e, sh.newEnvs = some e → sh1.env = some e)) ∧
    (∀ sh1 tr, engineStep f (.reload ctx sh) = .reloadErr sh1 tr →
      SameCore sh sh1 ∧ sh1.newEnvs = none ∧ sh1.env = none) := by
  cases f with
  | zero =>
    constructor <;> (intro sh1 tr h; simp [engineStep] at h)
  | succ f =>
    cases sh with
    | mk w hh envO slotO subs t fr pv rg =>
      cases slotO with
      | none =>
        cases envO with
        | none =>
          constructor <;> (intro sh1 tr h; cases ctx <;> simp [engineStep] at h)
        | some e0 =>
          constructor
          · intro sh1 tr h
            have h' : Res.reloadOk (Shader.mk w hh (some e0) none subs t fr pv rg)
                ([] : List Ev) = Res.reloadOk sh1 tr := h
            simp only [Res.reloadOk.injEq] at h'
            obtain ⟨h1, h2⟩ := h'
            subst h1
            subst h2
            refine ⟨⟨rfl, rfl, rfl, rfl, rfl, rfl⟩, rfl, fun _ => ⟨rfl, rfl⟩, ?_⟩
            intro e hc
            simp [Shader.newEnvs] at hc
          · intro sh1 tr h
            have h' : Res.reloadOk (Shader.mk w hh (some e0) none subs t fr pv rg)
                ([] : List Ev) = Res.reloadErr sh1 tr := h
            simp at h'
      | some e =>
        cases hs : e.setupOk with
        | false =>
          have heq : engineStep (f + 1)
              (.reload ctx (.mk w hh envO (some e) subs t fr pv rg)) =
              .reloadErr (.mk w hh none none subs t fr pv rg)
                ((match envO with
                  | some old => [Ev.envClose old.id]
                  | none => []) ++ setupTrace e) := by
            cases envO <;> simp [engineStep, hs]
          constructor
          · intro sh1 tr h
            rw [heq] at h
            simp at h
          · intro sh1 tr h
            rw [heq] at h
            simp only [Res.reloadErr.injEq] at h
            obtain ⟨h1, _⟩ := h
            subst h1
            exact ⟨⟨rfl, rfl, rfl, rfl, rfl, rfl⟩, rfl, rfl⟩
        | true =>
          cases hb : engineStep f (.buildSubs e.subs)
          case subsOk ns tr2 =>
            cases hsrc : e.sourcesOk with
            | true =>
              have heq : engineStep (f + 1)
                  (.reload ctx (.mk w hh envO (some e) subs t fr pv rg)) =
                  .reloadOk (.mk w hh (some e) none ns t fr pv rg)
                    ((match envO with
                      | some old => [Ev.envClose old.id]
                      | none => []) ++ setupTrace e ++ tr2) := by
                cases envO <;> simp [engineStep, hs, hb, hsrc]
              constructor
              · intro sh1 tr h
                rw [heq] at h
                simp only [Res.reloadOk.injEq] at h
                obtain ⟨h1, _⟩ := h
                subst h1
                refine ⟨⟨rfl, rfl, rfl, rfl, rfl, rfl⟩, rfl, ?_, ?_⟩
                · intro hc
                  simp [Shader.newEnvs] at hc
                · intro e2 hc
                  simp only [Shader.newEnvs, Option.some.injEq] at hc
                  subst hc
                  rfl
              · intro sh1 tr h
                rw [heq] at h
                simp at h
            | false =>
              have heq : engineStep (f + 1)
                  (.reload ctx (.mk w hh envO (some e) subs t fr pv rg)) =
                  .reloadErr (.mk w hh none none ns t fr pv rg)
                    ((match envO with
                      | some old => [Ev.envClose old.id]
                      | none => []) ++ setupTrace e ++ tr2) := by
                cases envO <;> simp [engineStep, hs, hb, hsrc]
              constructor
              · intro sh1 tr h
                rw [heq] at h
                simp at h
              · intro sh1 tr h
                rw [heq] at h
                simp only [Res.reloadErr.injEq] at h
                obtain ⟨h1, _⟩ := h
                subst h1
                exact ⟨⟨rfl, rfl, rfl, rfl, rfl, rfl⟩, rfl, rfl⟩
          case subsErr part tr2 =>
            have heq : engineStep (f + 1)
                (.reload ctx (.mk w hh envO (some e) subs t fr pv rg)) =
                .reloadErr (.mk w hh none none part t fr pv rg)
                  ((match envO with
                    | some old => [Ev.envClose old.id]
                    | none => []) ++ setupTrace e ++ tr2) := by
              cases envO <;> simp [engineStep, hs, hb]
            constructor
            · intro sh1 tr h
              rw [heq] at h
              simp at h
            · intro sh1 tr h
              rw [heq] at h
              simp only [Res.reloadErr.injEq] at h
              obtain ⟨h1, _⟩ := h
              subst h1
              exact ⟨⟨rfl, rfl, rfl, rfl, rfl, rfl⟩, rfl, rfl⟩
          all_goals
            constructor <;>
              (intro sh1 tr h; cases envO <;> simp [engineStep, hs, hb] at h)

/-- Helper: shape of every successful `nextHandle` call: the frame was
rendered with the engine's (possibly freshly swapped-in) environment at a
render state carrying the pre-tick counters, the ring advanced by one and
only the drawn target changed, the counters advanced afterwards, and the
trace ends with the environment's `PreRender` followed by the draw. -/
theorem tick_ok_shape (f i : Nat) (sh sh' : Shader) (hdl : Nat) (tr : List Ev)
    (h : engineStep f (.tick i sh) = .tickOk sh' hdl tr) :
    ∃ e trPre st,
      sh'.env = some e ∧ sh'.newEnvs = none ∧
      sh'.w = sh.w ∧ sh'.h = sh.h ∧
      sh'.time = sh.time + i ∧ sh'.frame = sh.frame + 1 ∧
      sh'.prevFrameHandle = some hdl ∧
      hdl = (sh.renderer.curTargetIndex + 1) % numBuffers ∧
      sh'.renderer.curTargetIndex = hdl ∧
      sh'.renderer.targets hdl = some (e.render st) ∧
      (∀ s, s ≠ hdl → sh'.renderer.targets s = sh.renderer.targets s) ∧
      st.time = sh.time ∧ st.interval = i ∧ st.framesProcessed = sh.frame ∧
      st.canvasWidth = sh.w ∧ st.canvasHeight = sh.h ∧
      st.prevFrame = sh.prevFrameHandle.bind (fun p => sh.renderer.targets p) ∧
      tr = trPre ++ [Ev.preRender e.id sh.time sh.frame, Ev.draw e.id hdl] ∧
      (sh.newEnvs = none → sh.env = some e) ∧
      (∀ e2, sh.newEnvs = some e2 → e = e2) := by
  cases sh with
  | mk w0 h0 env0 slot0 subs0 t0 fr0 pv0 rg0 =>
    cases f with
    | zero => simp [engineStep] at h
    | succ g =>
      cases hr : engineStep g (.reload false (.mk w0 h0 env0 slot0 subs0 t0 fr0 pv0 rg0))
      case reloadOk sh1 tr0 =>
        obtain ⟨hcore, hslot, hnone, hpend⟩ :=
          (reload_shape g false (.mk w0 h0 env0 slot0 subs0 t0 fr0 pv0 rg0)).1 sh1 tr0 hr
        cases sh1 with
        | mk w1 h1 env1 slot1 subs1 t1 fr1 pv1 rg1 =>
          obtain ⟨hw, hh, ht, hfr, hpv, hrg⟩ := hcore
          simp only [Shader.w, Shader.h, Shader.time, Shader.frame,
            Shader.prevFrameHandle, Shader.renderer] at hw hh ht hfr hpv hrg
          simp only [Shader.newEnvs] at hslot
          subst hw; subst hh; subst ht; subst hfr; subst hpv; subst hrg
          subst hslot
          cases env1 with
          | none =>
            simp [engineStep, hr] at h
          | some e =>
            cases hts : engineStep g (.tickSubs i subs1)
            case tickSubsOk subs2 bufs trS =>
              have h' : Res.tickOk
                  (.mk w1 h1 (some e) none subs2 (t1 + i) (fr1 + 1)
                    (some ((rg1.curTargetIndex + 1) % numBuffers))
                    (PboRenderer.draw rg1
                      (e.render ⟨t1, i, fr1, w1, h1,
                        pv1.bind (fun p => rg1.texture p), bufs⟩)).1)
                  ((rg1.curTargetIndex + 1) % numBuffers)
                  (tr0 ++ trS ++ [Ev.preRender e.id t1 fr1, Ev.draw e.id
                    ((rg1.curTargetIndex + 1) % numBuffers)]) =
                  Res.tickOk sh' hdl tr := by
                rw [← h]
                simp [engineStep, hr, hts, PboRenderer.draw]
              simp only [Res.tickOk.injEq] at h'
              obtain ⟨hsh, hhdl, htr⟩ := h'
              subst hsh
              subst hhdl
              subst htr
              refine ⟨e, tr0 ++ trS,
                ⟨t1, i, fr1, w1, h1, pv1.bind (fun p => rg1.texture p), bufs⟩,
                rfl, rfl, rfl, rfl, rfl, rfl, rfl, rfl, rfl,
                ?_, ?_, rfl, rfl, rfl, rfl, rfl, rfl, rfl, ?_, ?_⟩
              · simp [Shader.renderer, PboRenderer.draw]
              · intro s hs
                simp only [Shader.renderer, PboRenderer.draw]
                simp [hs]
              · intro hn
                simp only [Shader.newEnvs] at hn
                subst hn
                obtain ⟨hsh1, _⟩ := hnone rfl
                have := congrArg Shader.env hsh1
                simpa [Shader.env] using this.symm
              · intro e2 hp
                simp only [Shader.newEnvs] at hp
                subst hp
                have := hpend e2 rfl
                simp only [Shader.env, Option.some.injEq] at this
                exact this
            case tickSubsFail trS =>
              simp [engineStep, hr, hts] at h
            case outOfFuel =>
              simp [engineStep, hr, hts] at h
            all_goals simp [engineStep, hr, hts] at h
      case reloadErr sh1 tr0 => simp [engineStep, hr] at h
      case canceled => simp [engineStep, hr] at h
      case blocked => simp [engineStep, hr] at h
      case outOfFuel => simp [engineStep, hr] at h
      all_goals simp [engineStep, hr] at h

/-- Helper: a failed `nextHandle` leaves the time and frame counters
unchanged. -/
theorem tick_fail_core (f i : Nat) (sh sh1 : Shader) (tr : List Ev)
    (h : engineStep f (.tick i sh) = .tickFail sh1 tr) :
    sh1.time = sh.time ∧ sh1.frame = sh.frame := by
  cases f with
  | zero => simp [engineStep] at h
  | succ g =>
    cases hr : engineStep g (.reload false sh)
    case reloadOk sh2 tr0 =>
      obtain ⟨hcore, -, -, -⟩ := (reload_shape g false sh).1 sh2 tr0 hr
      cases sh2 with
      | mk w1 h1 env1 slot1 subs1 t1 fr1 pv1 rg1 =>
        cases env1 with
        | none =>
          have h' : Res.tickFail (.mk w1 h1 none slot1 subs1 t1 fr1 pv1 rg1) tr0 =
              Res.tickFail sh1 tr := by
            rw [← h]
            simp [engineStep, hr]
          simp only [Res.tickFail.injEq] at h'
          obtain ⟨h1', -⟩ := h'
          subst h1'
          exact ⟨hcore.2.2.1, hcore.2.2.2.1⟩
        | some e =>
          cases hts : engineStep g (.tickSubs i subs1)
          case tickSubsFail trS =>
            have h' : Res.tickFail (.mk w1 h1 (some e) slot1 subs1 t1 fr1 pv1 rg1)
                (tr0 ++ trS) = Res.tickFail sh1 tr := by
              rw [← h]
              simp [engineStep, hr, hts]
            simp only [Res.tickFail.injEq] at h'
            obtain ⟨h1', -⟩ := h'
            subst h1'
            exact ⟨hcore.2.2.1, hcore.2.2.2.1⟩
          all_goals simp [engineStep, hr, hts] at h
    case reloadErr sh2 tr0 =>
      obtain ⟨hcore, -, -⟩ := (reload_shape g false sh).2 sh2 tr0 hr
      have h' : Res.tickFail sh2 tr0 = Res.tickFail sh1 tr := by
        rw [← h]
        simp [engineStep, hr]
      simp only [Res.tickFail.injEq] at h'
      obtain ⟨h1', -⟩ := h'
      subst h1'
      exact ⟨hcore.2.2.1, hcore.2.2.2.1⟩
    all_goals simp [engineStep, hr] at h

/-- Helper: the animation loop never decreases the time and frame
counters. -/
theorem animate_counters_mono (f i : Nat) :
    ∀ (n : Nat) (sh : Shader) (q : List Nat) (del dr : List (Option Image)),
      sh.time ≤ (animate f i n sh q del dr).1.time ∧
      sh.frame ≤ (animate f i n sh q del dr).1.frame := by
  intro n
  induction n with
  | zero => intro sh q del dr; exact ⟨le_rfl, le_rfl⟩
  | succ n ih =>
    intro sh q del dr
    cases hr : engineStep f (.reload false sh)
    case reloadOk sh1 tr0 =>
      obtain ⟨hcore, -, -, -⟩ := (reload_shape f false sh).1 sh1 tr0 hr
      cases hts : engineStep f (.tick i sh1)
      case tickOk sh2 hdl tr1 =>
        obtain ⟨e, trPre, st, henv, hslot2, hw2, hh2, ht2, hfr2, hpv2, hhdl, hcur,
          hhit, hmiss, hst1, hst2, hst3, hst4, hst5, hst6, htr, hne, hpe⟩ :=
          tick_ok_shape f i sh1 sh2 hdl tr1 hts
        have hts' : sh.time ≤ sh2.time := by
          rw [ht2, ← hcore.2.2.1]
          exact Nat.le_add_right _ _
        have hfs' : sh.frame ≤ sh2.frame := by
          rw [hfr2, ← hcore.2.2.2.1]
          exact Nat.le_add_right _ _
        by_cases hq : (q ++ [hdl]).length = numBuffers
        · cases hql : q ++ [hdl] with
          | nil => simp at hql
          | cons q0 qrest =>
            have heq : animate f i (n + 1) sh q del dr =
                animate f i n sh2 qrest
                  (del ++ [(sh2.renderer.image q0).map flipImage])
                  (dr ++ [sh2.renderer.image hdl]) := by
              rw [hql] at hq
              simp [animate, hr, hts, hql, hq]
            rw [heq]
            obtain ⟨ha, hb⟩ := ih sh2 qrest
              (del ++ [(sh2.renderer.image q0).map flipImage])
              (dr ++ [sh2.renderer.image hdl])
            exact ⟨le_trans hts' ha, le_trans hfs' hb⟩
        · have heq : animate f i (n + 1) sh q del dr =
              animate f i n sh2 (q ++ [hdl]) del (dr ++ [sh2.renderer.image hdl]) := by
            simp only [animate, hr, hts]
            rw [if_neg hq]
          rw [heq]
          obtain ⟨ha, hb⟩ := ih sh2 (q ++ [hdl]) del (dr ++ [sh2.renderer.image hdl])
          exact ⟨le_trans hts' ha, le_trans hfs' hb⟩
      case tickFail sh2 tr1 =>
        have heq : animate f i (n + 1) sh q del dr = (sh1, q, del, dr) := by
          simp [animate, hr, hts]
        rw [heq]
        exact ⟨le_of_eq hcore.2.2.1.symm, le_of_eq hcore.2.2.2.1.symm⟩
      all_goals
        have heq : animate f i (n + 1) sh q del dr = (sh1, q, del, dr) := by
          simp [animate, hr, hts]
        rw [heq]
        exact ⟨le_of_eq hcore.2.2.1.symm, le_of_eq hcore.2.2.2.1.symm⟩
    case reloadErr sh1 tr0 =>
      obtain ⟨hcore, -, -⟩ := (reload_shape f false sh).2 sh1 tr0 hr
      have heq : animate f i (n + 1) sh q del dr = animate f i n sh1 q del dr := by
        simp [animate, hr]
      rw [heq]
      obtain ⟨ha, hb⟩ := ih sh1 q del dr
      exact ⟨le_trans (le_of_eq hcore.2.2.1.symm) ha,
        le_trans (le_of_eq hcore.2.2.2.1.symm) hb⟩
    all_goals
      have heq : animate f i (n + 1) sh q del dr = (sh, q, del, dr) := by
        simp [animate, hr]
      rw [heq]
      exact ⟨le_rfl, le_rfl⟩

/-- C5: an environment swap leaves the engine's time and frame counters
unchanged (for both successful and failed reloads); the `RenderState` of
the first `PreRender` after any tick — including the first tick after a
swap — carries exactly the accumulated `Time` and `FramesProcessed`, which
only then advance by the interval and by one; and across any tick, failed
tick, or whole animation run the counters never decrease. -/
theorem time_continuity_across_swap :
    (∀ f ctx sh sh1 tr,
        (reloadEnvironment f ctx sh = .reloadOk sh1 tr ∨
          reloadEnvironment f ctx sh = .reloadErr sh1 tr) →
        sh1.time = sh.time ∧ sh1.frame = sh.frame) ∧
    (∀ f i sh sh' hdl tr, nextHandle f i sh = .tickOk sh' hdl tr →
        ∃ e trPre, sh'.env = some e ∧
          tr = trPre ++ [Ev.preRender e.id sh.time sh.frame, Ev.draw e.id hdl] ∧
          sh'.time = sh.time + i ∧ sh'.frame = sh.frame + 1) ∧
    (∀ f i sh sh' hdl tr,
        (nextHandle f i sh = .tickOk sh' hdl tr ∨ nextHandle f i sh = .tickFail sh' tr) →
        sh.time ≤ sh'.time ∧ sh.frame ≤ sh'.frame) ∧
    (∀ f i n sh q del dr,
        sh.time ≤ (animate f i n sh q del dr).1.time ∧
        sh.frame ≤ (animate f i n sh q del dr).1.frame) := by
  refine ⟨?_, ?_, ?_, ?_⟩
  · intro f ctx sh sh1 tr h
    cases h with
    | inl h =>
      obtain ⟨hcore, -, -, -⟩ := (reload_shape f ctx sh).1 sh1 tr h
      exact ⟨hcore.2.2.1, hcore.2.2.2.1⟩
    | inr h =>
      obtain ⟨hcore, -, -⟩ := (reload_shape f ctx sh).2 sh1 tr h
      exact ⟨hcore.2.2.1, hcore.2.2.2.1⟩
  · intro f i sh sh' hdl tr h
    obtain ⟨e, trPre, st, henv, hslot2, hw2, hh2, ht2, hfr2, hpv2, hhdl, hcur,
      hhit, hmiss, hst1, hst2, hst3, hst4, hst5, hst6, htr, hne, hpe⟩ :=
      tick_ok_shape f i sh sh' hdl tr h
    exact ⟨e, trPre, henv, htr, ht2, hfr2⟩
  · intro f i sh sh' hdl tr h
    cases h with
    | inl h =>
      obtain ⟨e, trPre, st, henv, hslot2, hw2, hh2, ht2, hfr2, hpv2, hhdl, hcur,
        hhit, hmiss, hst1, hst2, hst3, hst4, hst5, hst6, htr, hne, hpe⟩ :=
        tick_ok_shape f i sh sh' hdl tr h
      rw [ht2, hfr2]
      exact ⟨Nat.le_add_right _ _, Nat.le_add_right _ _⟩
    | inr h =>
      obtain ⟨ht', hfr'⟩ := tick_fail_core f i sh sh' tr h
      rw [ht', hfr']
      exact ⟨le_rfl, le_rfl⟩
  · intro f i n sh q del dr
    exact animate_counters_mono f i n sh q del dr

/-- C5 witness: concrete instantiations — a failed swap on `shSwapFail`
preserves the counters 7 and 3, and a tick of `shReady` advances time by
the interval and the frame by one while its `PreRender` sees 0 and 0. -/
theorem time_continuity_across_swap_witness :
    ((reloadEnvironment 9 false shSwapFail).resShader.map Shader.time = some 7 ∧
      (reloadEnvironment 9 false shSwapFail).resShader.map Shader.frame = some 3) ∧
    (∃ sh' hdl tr, nextHandle 9 1 shSwapOk = .tickOk sh' hdl tr ∧
      (∃ e trPre, sh'.env = some e ∧
        tr = trPre ++ [Ev.preRender e.id 7 3, Ev.draw e.id hdl] ∧
        sh'.time = 7 + 1 ∧ sh'.frame = 3 + 1)) := by
  constructor
  · have h := time_continuity_across_swap.1 9 false shSwapFail
      (.mk 4 4 none none [] 7 3 none PboRenderer.init)
      ([Ev.envClose 0] ++ setupTrace envBadSetup) (Or.inr rfl)
    exact ⟨by rw [show (reloadEnvironment 9 false shSwapFail).resShader =
        some (.mk 4 4 none none [] 7 3 none PboRenderer.init) from rfl]; rfl,
      by rw [show (reloadEnvironment 9 false shSwapFail).resShader =
        some (.mk 4 4 none none [] 7 3 none PboRenderer.init) from rfl]; rfl⟩
  · refine ⟨_, _, _, rfl, ?_⟩
    exact time_continuity_across_swap.2.1 9 1 shSwapOk _ _ _ rfl

/-- C8: the environment-swap check is non-blocking and never skips a
pending swap.  With an active environment: if nothing is pending the
reload returns at once with the engine unchanged, independently of the
cancellation state; if an environment is pending, a successful tick has
already installed it (the `PreRender`/draw of that frame run against the
new environment).  With no active environment the reload blocks: it
returns only by consuming a pending environment, or reports cancellation
when the context is canceled. -/
theorem reload_nonblocking_check :
    (∀ f ctx sh e0, sh.env = some e0 → sh.newEnvs = none →
        reloadEnvironment (f + 1) ctx sh = .reloadOk sh []) ∧
    (∀ f i sh e0 e sh' hdl tr, sh.env = some e0 → sh.newEnvs = some e →
        nextHandle f i sh = .tickOk sh' hdl tr →
        sh'.env = some e ∧ sh'.newEnvs = none ∧
        ∃ trPre, tr = trPre ++ [Ev.preRender e.id sh.time sh.frame, Ev.draw e.id hdl]) ∧
    (∀ f sh, sh.env = none → sh.newEnvs = none →
        reloadEnvironment (f + 1) true sh = .canceled ∧
        reloadEnvironment (f + 1) false sh = .blocked) ∧
    (∀ f ctx w h t fr pv rg e, e.setupOk = true → e.sourcesOk = true → e.subs = [] →
        reloadEnvironment (f + 2) ctx (.mk w h none (some e) [] t fr pv rg) =
          .reloadOk (.mk w h (some e) none [] t fr pv rg) (setupTrace e)) := by
  refine ⟨?_, ?_, ?_, ?_⟩
  · intro f ctx sh e0 h1 h2
    exact reload_no_pending f ctx sh e0 h1 h2
  · intro f i sh e0 e sh' hdl tr h1 h2 h3
    obtain ⟨e', trPre, st, henv, hslot2, hw2, hh2, ht2, hfr2, hpv2, hhdl, hcur,
      hhit, hmiss, hst1, hst2, hst3, hst4, hst5, hst6, htr, hne, hpe⟩ :=
      tick_ok_shape f i sh sh' hdl tr h3
    have he : e' = e := hpe e h2
    subst he
    exact ⟨henv, hslot2, trPre, htr⟩
  · intro f sh h1 h2
    cases sh with
    | mk w hh envO slotO subs t fr pv rg =>
      simp only [Shader.env] at h1
      simp only [Shader.newEnvs] at h2
      subst h1
      subst h2
      exact ⟨rfl, rfl⟩
  · intro f ctx w h t fr pv rg e hsu hso hsubs
    have heq : engineStep (f + 2) (.reload ctx (.mk w h none (some e) [] t fr pv rg)) =
        .reloadOk (.mk w h (some e) none [] t fr pv rg)
          (([] : List Ev) ++ setupTrace e ++ ([] : List Ev)) := by
      simp [engineStep, hsu, hso, hsubs]
    simpa using heq

/-- C8 witness: concrete instantiations of all four parts of
`reload_nonblocking_check`. -/
theorem reload_nonblocking_check_witness :
    reloadEnvironment 9 false shReady = .reloadOk shReady [] ∧
    (∃ sh' hdl tr, nextHandle 9 1 shSwapOk = .tickOk sh' hdl tr ∧
      sh'.env = some envGood2 ∧ sh'.newEnvs = none) ∧
    (reloadEnvironment 9 true (newShader 4 4) = .canceled ∧
      reloadEnvironment 9 false (newShader 4 4) = .blocked) ∧
    reloadEnvironment 9 false (.mk 4 4 none (some envGood2) [] 5 2 none PboRenderer.init) =
      .reloadOk (.mk 4 4 (some envGood2) none [] 5 2 none PboRenderer.init)
        (setupTrace envGood2) := by
  refine ⟨reload_nonblocking_check.1 8 false shReady envGood rfl rfl, ?_,
    reload_nonblocking_check.2.2.1 8 (newShader 4 4) rfl rfl,
    reload_nonblocking_check.2.2.2 7 false 4 4 5 2 none PboRenderer.init envGood2
      rfl rfl rfl⟩
  refine ⟨_, _, _, rfl, ?_, ?_⟩
  · exact (reload_nonblocking_check.2.1 9 1 shSwapOk envGood envGood2 _ _ _
      rfl rfl rfl).1
  · exact (reload_nonblocking_check.2.1 9 1 shSwapOk envGood envGood2 _ _ _
      rfl rfl rfl).2.1

/-- Helper: a tick of a ready engine succeeds (given fuel beyond the
engine's depth index) and produces a ready engine; the children are ticked
first and their fresh outputs become the parent's `subBuffers`. -/
theorem ready_tick_master :
    ∀ fc : Nat,
      (∀ d i sh, ReadyD d sh → d + 1 ≤ fc → TickSpec fc i d sh) ∧
      (∀ d i subs, ReadySubs d subs → d + 1 ≤ fc → SubsSpec fc i d subs) := by
  intro fc
  induction fc using Nat.strong_induction_on with
  | _ fc ih =>
    constructor
    · intro d i sh hR hf
      cases hR with
      | intro d' dd w h e subs t fr pv rg hsubs hlt =>
        obtain ⟨g, rfl⟩ : ∃ g, fc = g + 1 := ⟨fc - 1, by omega⟩
        have hrl : engineStep g (.reload false
            (.mk w h (some e) none subs t fr pv rg)) =
            .reloadOk (.mk w h (some e) none subs t fr pv rg) [] := by
          obtain ⟨g', rfl⟩ : ∃ g', g = g' + 1 := ⟨g - 1, by omega⟩
          exact reload_no_pending g' false _ e rfl rfl
        obtain ⟨subs2, bufs, trS, hts, hready2, hforall⟩ :=
          (ih g (by omega)).2 d' i subs hsubs (by omega)
        have hEq : engineStep (g + 1)
            (.tick i (.mk w h (some e) none subs t fr pv rg)) =
            .tickOk (.mk w h (some e) none subs2 (t + i) (fr + 1)
                (some ((rg.curTargetIndex + 1) % numBuffers))
                (PboRenderer.draw rg (e.render ⟨t, i, fr, w, h,
                  pv.bind (fun p => rg.texture p), bufs⟩)).1)
              ((rg.curTargetIndex + 1) % numBuffers)
              (trS ++ [Ev.preRender e.id t fr,
                Ev.draw e.id ((rg.curTargetIndex + 1) % numBuffers)]) := by
          simp [engineStep, hrl, hts, PboRenderer.draw]
        have hReady : ReadyD d (.mk w h (some e) none subs2 (t + i) (fr + 1)
            (some ((rg.curTargetIndex + 1) % numBuffers))
            (PboRenderer.draw rg (e.render ⟨t, i, fr, w, h,
              pv.bind (fun p => rg.texture p), bufs⟩)).1) :=
          ReadyD.intro d' d w h e subs2 (t + i) (fr + 1) _ _ hready2 hlt
        have hHit : (Shader.mk w h (some e) none subs2 (t + i) (fr + 1)
            (some ((rg.curTargetIndex + 1) % numBuffers))
            (PboRenderer.draw rg (e.render ⟨t, i, fr, w, h,
              pv.bind (fun p => rg.texture p), bufs⟩)).1).renderer.targets
              ((rg.curTargetIndex + 1) % numBuffers) =
            some (e.render ⟨t, i, fr, w, h,
              pv.bind (fun p => rg.texture p), bufs⟩) := by
          simp [Shader.renderer, PboRenderer.draw]
        have hLen : (RenderState.mk t i fr w h
            (pv.bind (fun p => rg.texture p)) bufs).subBuffers.length =
            (Shader.mk w h (some e) none subs t fr pv rg).subTargets.length := by
          simpa [Shader.subTargets] using (List.Forall₂.length_eq hforall).symm
        exact ⟨e, _, _, trS, _, rfl, hEq, hReady, hHit, hLen, hforall,
          rfl, rfl, rfl, rfl, rfl⟩
    · intro d i subs hS hf
      cases hS with
      | nil =>
        obtain ⟨g, rfl⟩ : ∃ g, fc = g + 1 := ⟨fc - 1, by omega⟩
        exact ⟨[], [], [], rfl, .nil d, .nil⟩
      | cons d1 d2 dd nm s rest hs hrest h1 h2 =>
        obtain ⟨g, rfl⟩ : ∃ g, fc = g + 1 := ⟨fc - 1, by omega⟩
        obtain ⟨ec, s1, hdl, trSc, stc, henvc, heqc, hreadyc, hhitc, hlenc, hforallc,
          hstc1, hstc2, hstc3, hstc4, hstc5⟩ :=
          (ih g (by omega)).1 d1 i s hs (by omega)
        obtain ⟨l2, bufs2, tr2, heqr, hready3, hforall2⟩ :=
          (ih g (by omega)).2 d2 i rest hrest (by omega)
        have htex : s1.renderer.texture hdl = some (ec.render stc) := hhitc
        obtain ⟨e', trPre, st', henv', hslot2, hw2, hh2, ht2, hfr2, hpv2, hhdl, hcur2,
          hhit', hmiss, hp1, hp2, hp3, hp4, hp5, hp6, htr', hne, hpe⟩ :=
          tick_ok_shape g i s s1 hdl _ heqc
        have hEq : engineStep (g + 1) (.tickSubs i ((nm, s) :: rest)) =
            .tickSubsOk ((nm, s1) :: l2) ((nm, ec.render stc) :: bufs2)
              ((trSc ++ [Ev.preRender ec.id s.time s.frame, Ev.draw ec.id hdl]) ++ tr2) := by
          simp [engineStep, heqc, htex, heqr]
        refine ⟨(nm, s1) :: l2, (nm, ec.render stc) :: bufs2,
          (trSc ++ [Ev.preRender ec.id s.time s.frame, Ev.draw ec.id hdl]) ++ tr2,
          hEq, ReadySubs.cons d1 d2 d nm s1 l2 hreadyc hready3 h1 h2, ?_⟩
        refine List.Forall₂.cons ⟨rfl, ec, stc, henvc, rfl, hstc1, hstc3, ?_, ?_⟩ ?_
        · simp
        · rw [hhdl]
          simp
        · refine List.Forall₂.imp ?_ hforall2
          intro a b hab
          obtain ⟨hb1, ec2, stc2, q1, q2, q3, q4, q5, q6⟩ := hab
          exact ⟨hb1, ec2, stc2, q1, q2, q3, q4,
            List.mem_append_right _ q5, List.mem_append_right _ q6⟩

/-- C6: DAG evaluation order.  In every tick of a ready engine with
sub-engines, the trace consists of the children's calls (`trS`) strictly
before the parent's `PreRender` and draw; every child's `PreRender` and
draw events are inside `trS`; and the `RenderState` the parent renders
with maps each child name to the image that child's environment produced
THIS frame (at the child's current counters). -/
theorem dag_children_before_parent (d f i : Nat) (sh : Shader)
    (hR : ReadyD d sh) (hf : d + 1 ≤ f) :
    ∃ e sh' hdl trS st,
      sh.env = some e ∧
      nextHandle f i sh =
        .tickOk sh' hdl (trS ++ [Ev.preRender e.id sh.time sh.frame, Ev.draw e.id hdl]) ∧
      sh'.renderer.targets hdl = some (e.render st) ∧
      List.Forall₂ (ChildSpec trS) sh.subTargets st.subBuffers ∧
      st.time = sh.time ∧ st.framesProcessed = sh.frame := by
  obtain ⟨e, sh', hdl, trS, st, henv, heq, hready, hhit, hlen, hforall,
    ht, hi, hfr, hcw, hch⟩ := (ready_tick_master f).1 d i sh hR hf
  exact ⟨e, sh', hdl, trS, st, henv, heq, hhit, hforall, ht, hfr⟩

/-- C6 witness: `dag_children_before_parent` at a concrete parent engine
with two ready children. -/
theorem dag_children_before_parent_witness :
    ReadyD 4 shParent ∧
    (∃ e sh' hdl trS st,
      shParent.env = some e ∧
      nextHandle 9 1 shParent =
        .tickOk sh' hdl
          (trS ++ [Ev.preRender e.id shParent.time shParent.frame, Ev.draw e.id hdl]) ∧
      sh'.renderer.targets hdl = some (e.render st) ∧
      List.Forall₂ (ChildSpec trS) shParent.subTargets st.subBuffers ∧
      st.time = shParent.time ∧ st.framesProcessed = shParent.frame) := by
  have hA : ReadyD 1 shChildA :=
    ReadyD.intro 0 1 2 2 envChildA [] 0 0 none PboRenderer.init (.nil 0) (by omega)
  have hB : ReadyD 1 shChildB :=
    ReadyD.intro 0 1 2 2 envChildB [] 0 0 none PboRenderer.init (.nil 0) (by omega)
  have hsB : ReadySubs 2 [("b", shChildB)] :=
    ReadySubs.cons 1 0 2 "b" shChildB [] hB (.nil 0) (by omega) (by omega)
  have hsubs : ReadySubs 3 [("a", shChildA), ("b", shChildB)] :=
    ReadySubs.cons 1 2 3 "a" shChildA _ hA hsB (by omega) (by omega)
  have hP : ReadyD 4 shParent :=
    ReadyD.intro 3 4 4 4 envParent _ 0 0 none PboRenderer.init hsubs (by omega)
  exact ⟨hP, dag_children_before_parent 4 9 1 shParent hP (by omega)⟩

/-- C7 (counterexample): rendering the same environment twice in
single-image mode does NOT produce identical output for every environment:
`shReady` drives an environment whose shader output is the `iFrame`-style
frame counter.  The first `Image()` call renders pixel value 0, the second
renders 1, because the engine increments `frame` after every tick, also in
single-image mode. -/
theorem single_image_not_idempotent_counterexample :
    (shaderImage 9 shReady).2.map (fun img : Image => img.px 0 0) = some 0 ∧
    (shaderImage 9 (shaderImage 9 shReady).1).2.map
      (fun img : Image => img.px 0 0) = some 1 :=
  ⟨rfl, rfl⟩

/-- C7 (amended): rendering the same environment twice in single-image
mode produces identical output provided the environment's shader output
depends only on `Time`, `Interval` and the canvas size — not on
`FramesProcessed` or on the previous frame.  (Between the two calls, the
engine's `Time` is unchanged because the interval is 0, but
`FramesProcessed` has advanced by one and a previous frame has become
available, so frame-count-sensitive or feedback environments may render
differently.) -/
theorem single_image_idempotent_for_frame_insensitive_env
    (f d : Nat) (sh : Shader) (e : Env)
    (hR : ReadyD d sh) (hf : d + 1 ≤ f) (henv : sh.env = some e)
    (hrender : ∀ st1 st2 : RenderState, st1.time = st2.time →
      st1.interval = st2.interval → st1.canvasWidth = st2.canvasWidth →
      st1.canvasHeight = st2.canvasHeight → e.render st1 = e.render st2) :
    ∃ img, (shaderImage f sh).2 = some img ∧
      (shaderImage f (shaderImage f sh).1).2 = some img := by
  have hslotn : sh.newEnvs = none := by cases hR; rfl
  obtain ⟨e1, sh1, hdl1, trS1, st1, henv1, heq1, hready1, hhit1, hlen1, hforall1,
    ha1, ha2, ha3, ha4, ha5⟩ := (ready_tick_master f).1 d 0 sh hR hf
  have he1 : e1 = e := by
    rw [henv] at henv1
    exact (Option.some.inj henv1).symm
  subst e1
  obtain ⟨e', trPre, st', henv', hslot1', hw2, hh2, ht2, hfr2, hpv2, hhdl, hcur2,
    hhit', hmiss, hp1, hp2, hp3, hp4, hp5, hp6, htr2, hne2, hpe2⟩ :=
    tick_ok_shape f 0 sh sh1 hdl1 _ heq1
  have he' : e' = e := by
    have := (hne2 hslotn).symm.trans henv
    exact Option.some.inj this
  subst e'
  obtain ⟨e2, sh2, hdl2, trS2, st2, henv2, heq2, hready2, hhit2, hlen2, hforall2,
    hb1, hb2, hb3, hb4, hb5⟩ := (ready_tick_master f).1 d 0 sh1 hready1 hf
  have he2 : e2 = e := by
    have := henv2.symm.trans henv'
    exact Option.some.inj this
  subst e2
  have himg : e.render st2 = e.render st1 := by
    refine hrender st2 st1 ?_ ?_ ?_ ?_
    · rw [hb1, ht2, ha1]
      omega
    · rw [hb2, ha2]
    · rw [hb4, hw2, ha4]
    · rw [hb5, hh2, ha5]
  have s1 : shaderImage f sh = (sh1, sh1.renderer.image hdl1) := by
    simp [shaderImage, heq1]
  have s2 : shaderImage f sh1 = (sh2, sh2.renderer.image hdl2) := by
    simp [shaderImage, heq2]
  refine ⟨e.render st1, ?_, ?_⟩
  · rw [s1]
    exact hhit1
  · rw [s1]
    show (shaderImage f sh1).2 = _
    rw [s2]
    show sh2.renderer.targets hdl2 = _
    exact hhit2.trans (congrArg some himg)

/-- C7 witness: `single_image_idempotent_for_frame_insensitive_env` at a
concrete constant-output environment. -/
theorem single_image_idempotent_witness :
    ∃ img, (shaderImage 9 shReadyConst).2 = some img ∧
      (shaderImage 9 (shaderImage 9 shReadyConst).1).2 = some img := by
  have hC : ReadyD 1 shReadyConst :=
    ReadyD.intro 0 1 4 4 envGood2 [] 0 0 none PboRenderer.init (.nil 0) (by omega)
  exact single_image_idempotent_for_frame_insensitive_env 9 1 shReadyConst envGood2
    hC (by omega) rfl (fun _ _ _ _ _ _ => rfl)

/-- Helper: running the animation loop of a ready engine preserves the
loop invariant; every iteration ticks once, appends the tick's read-back
to the ghost list `dr`, and the invariant ties the delivered images to the
read-backs. -/
theorem animate_inv_run (d f i : Nat) (hf : d + 1 ≤ f) :
    ∀ (n : Nat) (sh : Shader) (q : List Nat) (del dr : List (Option Image)),
      ReadyD d sh → sh.renderer.curTargetIndex < numBuffers →
      AnimInv sh q del dr →
      ∃ shF qF delF drF ext,
        animate f i n sh q del dr = (shF, qF, delF, drF) ∧
        drF = dr ++ ext ∧ ext.length = n ∧ (∀ x ∈ ext, x.isSome = true) ∧
        AnimInv shF qF delF drF := by
  intro n
  induction n with
  | zero =>
    intro sh q del dr hR hc hInv
    exact ⟨sh, q, del, dr, [], rfl, by simp, rfl, by simp, hInv⟩
  | succ n ihn =>
    intro sh q del dr hR hc hInv
    have hslotn : sh.newEnvs = none := by cases hR; rfl
    obtain ⟨e0, henv0⟩ : ∃ e0, sh.env = some e0 := by cases hR; exact ⟨_, rfl⟩
    have hrl : engineStep f (.reload false sh) = .reloadOk sh [] := by
      obtain ⟨g, rfl⟩ : ∃ g, f = g + 1 := ⟨f - 1, by omega⟩
      exact reload_no_pending g false sh e0 henv0 hslotn
    obtain ⟨e, sh2, hdl, trS, st, henv, heq, hready2, hhit, hlen, hforall,
      ha1, ha2, ha3, ha4, ha5⟩ := (ready_tick_master f).1 d i sh hR hf
    obtain ⟨e', trPre, st', henv', hslot2, hw2, hh2, ht2, hfr2, hpv2, hhdl, hcur2,
      hhit', hmiss, hp1, hp2, hp3, hp4, hp5, hp6, htr2, hne2, hpe2⟩ :=
      tick_ok_shape f i sh sh2 hdl _ heq
    have himg : sh2.renderer.image hdl = some (e.render st) := hhit
    obtain ⟨hdel, hqreg, hs1, hs2, hs3⟩ := hInv
    have hc3 : sh.renderer.curTargetIndex < 3 := hc
    have hm1 : hdl ≠ sh.renderer.curTargetIndex := by
      rw [hhdl]; simp only [numBuffers]; omega
    have hm2 : hdl ≠ (sh.renderer.curTargetIndex + 2) % 3 := by
      rw [hhdl]; simp only [numBuffers]; omega
    have hcurnew : sh2.renderer.curTargetIndex < numBuffers := by
      rw [hcur2, hhdl]; simp only [numBuffers]; omega
    have hback2 : (sh2.renderer.curTargetIndex + 2) % 3 = sh.renderer.curTargetIndex := by
      rw [hcur2, hhdl]; simp only [numBuffers]; omega
    have hback1 : (sh2.renderer.curTargetIndex + 1) % 3 =
        (sh.renderer.curTargetIndex + 2) % 3 := by
      rw [hcur2, hhdl]; simp only [numBuffers]; omega
    rcases hqreg with ⟨hT, hq⟩ | ⟨hT, hq⟩ | ⟨hT, hq⟩
    · -- first tick: empty queue
      have hdr0 : dr = [] := List.length_eq_zero.mp hT
      subst hdr0
      subst hq
      simp only [List.length_nil, Nat.zero_sub, List.take_zero, List.map_nil] at hdel
      subst hdel
      have heqA : animate f i (n + 1) sh [] [] [] =
          animate f i n sh2 [hdl] [] [sh2.renderer.image hdl] := by
        simp only [animate, hrl, heq]
        rw [if_neg (by simp [numBuffers])]
        simp
      have hInv' : AnimInv sh2 [hdl] [] [sh2.renderer.image hdl] := by
        rw [himg]
        refine ⟨by simp, Or.inr (Or.inl ⟨by simp, by rw [hcur2]⟩), ?_, ?_, ?_⟩
        · intro h1
          refine ⟨e.render st, ?_, by simp⟩
          rw [hcur2]
          exact hhit
        · intro h2; simp at h2
        · intro h3; simp at h3
      obtain ⟨shF, qF, delF, drF, ext, hrun, hdrF, hextlen, hextsome, hInvF⟩ :=
        ihn sh2 [hdl] [] [sh2.renderer.image hdl] hready2 hcurnew hInv'
      refine ⟨shF, qF, delF, drF, sh2.renderer.image hdl :: ext,
        heqA.trans hrun, ?_, by simp [hextlen], ?_, hInvF⟩
      · rw [hdrF]; rfl
      · intro x hx
        rcases List.mem_cons.mp hx with rfl | hx'
        · rw [himg]; rfl
        · exact hextsome x hx'
    · -- second tick: one handle queued
      obtain ⟨im1, hs1a, hs1b⟩ := hs1 (by omega)
      subst hq
      have hdel0 : del = [] := by
        rw [hdel, hT]
        rfl
      subst hdel0
      have heqB : animate f i (n + 1) sh [sh.renderer.curTargetIndex] [] dr =
          animate f i n sh2 ([sh.renderer.curTargetIndex] ++ [hdl]) []
            (dr ++ [sh2.renderer.image hdl]) := by
        simp only [animate, hrl, heq]
        rw [if_neg (by simp [numBuffers])]
      have hInv' : AnimInv sh2 ([sh.renderer.curTargetIndex] ++ [hdl]) []
          (dr ++ [sh2.renderer.image hdl]) := by
        rw [himg]
        refine ⟨by simp [hT], Or.inr (Or.inr ⟨by simp [hT], ?_⟩), ?_, ?_, ?_⟩
        · rw [hback2, hcur2]
          rfl
        · intro h1
          refine ⟨e.render st, ?_, ?_⟩
          · rw [hcur2]
            exact hhit
          · have hidx : (dr ++ [some (e.render st)]).length - 1 = dr.length := by
              simp
            rw [hidx]
            exact List.getElem?_concat_length _ _
        · intro h2
          refine ⟨im1, ?_, ?_⟩
          · rw [hback2, hmiss _ hm1.symm]
            exact hs1a
          · have hidx : (dr ++ [some (e.render st)]).length - 2 = 0 := by
              simp [hT]
            rw [hidx, List.getElem?_append_left (by omega : 0 < dr.length)]
            have h0 : dr.length - 1 = 0 := by omega
            rw [h0] at hs1b
            exact hs1b
        · intro h3
          simp [hT] at h3
      obtain ⟨shF, qF, delF, drF, ext, hrun, hdrF, hextlen, hextsome, hInvF⟩ :=
        ihn sh2 ([sh.renderer.curTargetIndex] ++ [hdl]) []
          (dr ++ [sh2.renderer.image hdl]) hready2 hcurnew hInv'
      refine ⟨shF, qF, delF, drF, sh2.renderer.image hdl :: ext,
        heqB.trans hrun, ?_, by simp [hextlen], ?_, hInvF⟩
      · rw [hdrF]
        simp
      · intro x hx
        rcases List.mem_cons.mp hx with rfl | hx'
        · rw [himg]; rfl
        · exact hextsome x hx'
    · -- steady state: two handles queued, pop and deliver
      obtain ⟨im1, hs1a, hs1b⟩ := hs1 (by omega)
      obtain ⟨im2, hs2a, hs2b⟩ := hs2 hT
      subst hq
      have himgpop : sh2.renderer.image ((sh.renderer.curTargetIndex + 2) % 3) =
          some im2 := by
        show sh2.renderer.targets _ = _
        rw [hmiss _ hm2.symm]
        exact hs2a
      have heqC : animate f i (n + 1) sh
            [(sh.renderer.curTargetIndex + 2) % 3, sh.renderer.curTargetIndex] del dr =
          animate f i n sh2 [sh.renderer.curTargetIndex, hdl]
            (del ++ [(sh2.renderer.image ((sh.renderer.curTargetIndex + 2) % 3)).map
              flipImage])
            (dr ++ [sh2.renderer.image hdl]) := by
        simp only [animate, hrl, heq]
        rw [if_pos (by simp [numBuffers])]
        rfl
      have hInv' : AnimInv sh2 [sh.renderer.curTargetIndex, hdl]
          (del ++ [(sh2.renderer.image ((sh.renderer.curTargetIndex + 2) % 3)).map
            flipImage])
          (dr ++ [sh2.renderer.image hdl]) := by
        rw [himg, himgpop]
        refine ⟨?_, Or.inr (Or.inr ⟨by simp; omega, ?_⟩), ?_, ?_, ?_⟩
        · have hidx : (dr ++ [some (e.render st)]).length - 2 = dr.length - 1 := by
            simp
          rw [hidx, List.take_append_of_le_length (by omega : dr.length - 1 ≤ dr.length)]
          have h1 : dr.length - 1 = (dr.length - 2) + 1 := by omega
          rw [h1, List.take_succ, hs2b]
          rw [List.map_append, ← hdel]
          rfl
        · rw [hback2, hcur2]
        · intro h1
          refine ⟨e.render st, ?_, ?_⟩
          · rw [hcur2]
            exact hhit
          · have hidx : (dr ++ [some (e.render st)]).length - 1 = dr.length := by
              simp
            rw [hidx]
            exact List.getElem?_concat_length _ _
        · intro h2
          refine ⟨im1, ?_, ?_⟩
          · rw [hback2, hmiss _ hm1.symm]
            exact hs1a
          · have hidx : (dr ++ [some (e.render st)]).length - 2 = dr.length - 1 := by
              simp
            rw [hidx, List.getElem?_append_left (by omega : dr.length - 1 < dr.length)]
            exact hs1b
        · intro h3
          refine ⟨im2, ?_, ?_⟩
          · rw [hback1, hmiss _ hm2.symm]
            exact hs2a
          · have hidx : (dr ++ [some (e.render st)]).length - 3 = dr.length - 2 := by
              simp
            rw [hidx, List.getElem?_append_left (by omega : dr.length - 2 < dr.length)]
            exact hs2b
      obtain ⟨shF, qF, delF, drF, ext, hrun, hdrF, hextlen, hextsome, hInvF⟩ :=
        ihn sh2 [sh.renderer.curTargetIndex, hdl]
          (del ++ [(sh2.renderer.image ((sh.renderer.curTargetIndex + 2) % 3)).map
            flipImage])
          (dr ++ [sh2.renderer.image hdl]) hready2 hcurnew hInv'
      refine ⟨shF, qF, delF, drF, sh2.renderer.image hdl :: ext,
        heqC.trans hrun, ?_, by simp [hextlen], ?_, hInvF⟩
      · rw [hdrF]
        simp
      · intro x hx
        rcases List.mem_cons.mp hx with rfl | hx'
        · rw [himg]; rfl
        · exact hextsome x hx'

/-- Helper: a full animation run of a ready engine delivers, in order, the
flip-wrapped read-backs of its ticks. -/
theorem animate_run_spec (d f i n : Nat) (sh : Shader)
    (hR : ReadyD d sh) (hf : d + 1 ≤ f)
    (hcur : sh.renderer.curTargetIndex < numBuffers) :
    ∃ shF qF delF drF,
      animate f i n sh [] [] [] = (shF, qF, delF, drF) ∧
      drF.length = n ∧
      (∀ x ∈ drF, x.isSome = true) ∧
      delF = (drF.take (n - (numBuffers - 1))).map (Option.map flipImage) ∧
      (∀ k, k < n - (numBuffers - 1) →
        delF[k]? = (drF[k]?).map (Option.map flipImage)) := by
  have hInv0 : AnimInv sh [] [] [] := by
    refine ⟨rfl, Or.inl ⟨rfl, rfl⟩, ?_, ?_, ?_⟩ <;> (intro h; simp at h)
  obtain ⟨shF, qF, delF, drF, ext, hrun, hdrF, hextlen, hextsome, hInvF⟩ :=
    animate_inv_run d f i hf n sh [] [] [] hR hcur hInv0
  have hl : drF.length = n := by
    rw [hdrF]
    simpa using hextlen
  obtain ⟨hdelF, -, -, -, -⟩ := hInvF
  refine ⟨shF, qF, delF, drF, hrun, hl, ?_, ?_, ?_⟩
  · intro x hx
    apply hextsome
    rw [hdrF] at hx
    simpa using hx
  · rw [hdelF, hl]
    rfl
  · intro k hk
    rw [hdelF, List.getElem?_map]
    have hk' : k < drF.length - 2 := by
      rw [hl]
      exact hk
    rw [List.getElem?_take_of_lt hk']

/-- C4: frames are delivered in tick order.  Running the animation loop of
a ready engine for `n` iterations performs `n` ticks; `drF` is the
per-tick read-back list (the image produced by each tick's draw, in tick
order), every tick produced an image, and the stream of delivered images
is exactly the (flip-wrapped) read-backs of ticks `1 .. n-(N-1)` in tick
order, where `N = numBuffers` is the ring size: the k-th delivered image
is the image of the k-th tick's draw, never out of order. -/
theorem animate_delivers_in_tick_order (d f i n : Nat) (sh : Shader)
    (hR : ReadyD d sh) (hf : d + 1 ≤ f)
    (hcur : sh.renderer.curTargetIndex < numBuffers) :
    ∃ shF qF delF drF,
      animate f i n sh [] [] [] = (shF, qF, delF, drF) ∧
      drF.length = n ∧
      (∀ x ∈ drF, x.isSome = true) ∧
      delF = (drF.take (n - (numBuffers - 1))).map (Option.map flipImage) ∧
      (∀ k, k < n - (numBuffers - 1) →
        delF[k]? = (drF[k]?).map (Option.map flipImage)) :=
  animate_run_spec d f i n sh hR hf hcur

/-- C4 witness: `animate_delivers_in_tick_order` on the concrete ready
engine `shReady`, six iterations. -/
theorem animate_delivers_in_tick_order_witness :
    ∃ shF qF delF drF,
      animate 9 1 6 shReady [] [] [] = (shF, qF, delF, drF) ∧
      drF.length = 6 ∧
      (∀ x ∈ drF, x.isSome = true) ∧
      delF = (drF.take (6 - (numBuffers - 1))).map (Option.map flipImage) ∧
      (∀ k, k < 6 - (numBuffers - 1) →
        delF[k]? = (drF[k]?).map (Option.map flipImage)) := by
  have hC : ReadyD 1 shReady :=
    ReadyD.intro 0 1 4 4 envGood [] 0 0 none PboRenderer.init (.nil 0) (by omega)
  exact animate_delivers_in_tick_order 1 9 1 6 shReady hC (by omega) (by decide)

/-- C10: orientation of delivered images.  The animation loop wraps every
image it sends to the consumer in `flip`: the delivered image's pixel at
`(x, y)` is the read-back's pixel at `(x, h-y-1)` (for `y < h`, `flip.At`'s
index arithmetic).  Single-image mode's `Image()` instead returns the ring
read-back unflipped, so the two delivery paths are vertical mirrors of
each other for the same frame. -/
theorem delivered_frames_flipped :
    (∀ img : Image, (flipImage img).w = img.w ∧ (flipImage img).h = img.h ∧
      ∀ x y : Nat, (flipImage img).px x y = img.px x (img.h - y - 1)) ∧
    (∀ d f i n sh, ReadyD d sh → d + 1 ≤ f →
      sh.renderer.curTargetIndex < numBuffers →
      ∃ shF qF delF drF,
        animate f i n sh [] [] [] = (shF, qF, delF, drF) ∧
        ∀ k, k < n - (numBuffers - 1) →
          delF[k]? = (drF[k]?).map (Option.map flipImage)) ∧
    (∀ f : Nat, ∀ sh sh1 : Shader, ∀ hdl : Nat, ∀ tr : List Ev,
      engineStep f (.tick 0 sh) = .tickOk sh1 hdl tr →
      (shaderImage f sh).2 = sh1.renderer.image hdl) := by
  refine ⟨?_, ?_, ?_⟩
  · intro img
    exact ⟨rfl, rfl, fun x y => rfl⟩
  · intro d f i n sh hR hf hcur
    obtain ⟨shF, qF, delF, drF, hrun, hlen, hsome, hdel, hget⟩ :=
      animate_run_spec d f i n sh hR hf hcur
    exact ⟨shF, qF, delF, drF, hrun, hget⟩
  · intro f sh sh1 hdl tr h
    simp [shaderImage, h]

/-- C10 witness: concrete instantiation on `shReady`: the animate path and
the flip law, plus the unflipped single-image path. -/
theorem delivered_frames_flipped_witness :
    ((flipImage ⟨1, 2, fun _ y => y⟩).px 0 0 = 1) ∧
    (∃ shF qF delF drF,
      animate 9 1 6 shReady [] [] [] = (shF, qF, delF, drF) ∧
      ∀ k, k < 6 - (numBuffers - 1) →
        delF[k]? = (drF[k]?).map (Option.map flipImage)) ∧
    (∃ sh1 hdl tr, engineStep 9 (.tick 0 shReady) = .tickOk sh1 hdl tr ∧
      (shaderImage 9 shReady).2 = sh1.renderer.image hdl) := by
  have hC : ReadyD 1 shReady :=
    ReadyD.intro 0 1 4 4 envGood [] 0 0 none PboRenderer.init (.nil 0) (by omega)
  refine ⟨?_, delivered_frames_flipped.2.1 1 9 1 6 shReady hC (by omega) (by decide), ?_⟩
  · have h := (delivered_frames_flipped.1 ⟨1, 2, fun _ y => y⟩).2.2 0 0
    rw [h]
    rfl
  · exact ⟨_, _, _, rfl, delivered_frames_flipped.2.2 9 shReady _ _ _ rfl⟩

end Shady
